import Mathlib

/-!
Verification of the query pipeline of `homework_oop/csv_hendler.py`
(`DataProcessor`): records, operators, the operator planner
(`_optimize_operations_order`), field validation with difflib-style
suggestions (`_validate_fields`), per-operator execution semantics and
`execute()`.  Python records (dicts) are embedded as insertion-ordered
association lists, Python values as a closed variant type, fallible
Python callables as `Except String`-valued functions.
-/

/-- Scalar values stored in a record: the value kinds the CSV reader
produces (`None`, `str`, `int`, `bool`, list of topic strings). -/
inductive Value where
  | null : Value
  | str (s : String) : Value
  | int (n : Int) : Value
  | bool (b : Bool) : Value
  | list (l : List String) : Value
deriving DecidableEq, Repr

/-- A record: a Python dict as an insertion-ordered association list. -/
abbrev Rec := List (String × Value)

/-- Python `==` on the embedded values: `None == None`, structural on
strings, ints and lists, and `True == 1` / `False == 0` because Python
`bool` is an `int` subtype. -/
def pyEq : Value → Value → Bool
  | Value.null, Value.null => true
  | Value.str s, Value.str t => s == t
  | Value.int m, Value.int n => m == n
  | Value.bool a, Value.bool b => a == b
  | Value.bool a, Value.int n => (if a then (1 : Int) else 0) == n
  | Value.int m, Value.bool b => m == (if b then (1 : Int) else 0)
  | Value.list l, Value.list m => l == m
  | _, _ => false

/-- `dict.get(f)` lookup: first (and, for a Python dict, only) binding. -/
def rlookup (r : Rec) (f : String) : Option Value :=
  (r.find? (fun p => p.1 == f)).map Prod.snd

/-- `item.get(field)`: `None` when the key is absent. -/
def rget (r : Rec) (f : String) : Value :=
  (rlookup r f).getD Value.null

/-- Python dict assignment `d[k] = v`: replace in place when the key is
present, append otherwise. -/
def dictInsert (d : Rec) (k : String) (v : Value) : Rec :=
  match d with
  | [] => [(k, v)]
  | (k', v') :: rest =>
    if k' = k then (k, v) :: rest else (k', v') :: dictInsert rest k v

/-- A Python aggregation callable: may raise, embedded as `Except`. -/
abbrev AggFn := List Value → Except String Value

/-- A Python filter predicate: may raise, embedded as `Except`. -/
abbrev Cond := Rec → Except String Bool

/-- One pipeline operator, as appended to `self.operations` (the source
stores tuples tagged `"select"`, `"where"`, `"sort"`, `"group_by"`,
`"limit"`; `whereOp` stands for the `where` tag, which is a reserved
word here). -/
inductive Op where
  | select (fields : List String) : Op
  | whereOp (cond : Cond) : Op
  | sort (field : String) (reverse : Bool) : Op
  | group_by (field : String) (aggregation : List (String × AggFn)) : Op
  | limit (n : Int) : Op

/-- The tag `op[0]` of an operator tuple. -/
def opType : Op → String
  | Op.select _ => "select"
  | Op.whereOp _ => "where"
  | Op.sort _ _ => "sort"
  | Op.group_by _ _ => "group_by"
  | Op.limit _ => "limit"

/-- `DataProcessor._optimize_operations_order`: split the declared
operations by tag and emit them as WHERE, GROUP BY, SORT, SELECT,
LIMIT. -/
def optimizeOperationsOrder (ops : List Op) : List Op :=
  if ops.isEmpty then []
  else
    ops.filter (fun op => opType op == "where")
      ++ ops.filter (fun op => opType op == "group_by")
      ++ ops.filter (fun op => opType op == "sort")
      ++ ops.filter (fun op => opType op == "select")
      ++ ops.filter (fun op => opType op == "limit")

/-- `DataProcessor._apply_select`: project each record to the requested
fields; `item.get(field)` yields `None` (here `Value.null`) for an
absent field; the dict comprehension builds the output dict in field
order. -/
def applySelect (data : List Rec) (fields : List String) : List Rec :=
  data.map (fun item => fields.foldl (fun d f => dictInsert d f (rget item f)) [])

/-- `DataProcessor._apply_where`: keep the records satisfying the
condition; the predicate is called left to right and its first raised
exception aborts the comprehension. -/
def applyWhere (data : List Rec) (condition : Cond) : Except String (List Rec) :=
  match data with
  | [] => Except.ok []
  | item :: rest =>
    match condition item with
    | Except.error e => Except.error e
    | Except.ok b =>
      match applyWhere rest condition with
      | Except.error e => Except.error e
      | Except.ok t => Except.ok (if b then item :: t else t)

/-- Python `a < b` on the embedded values, `none` when the comparison
raises `TypeError`: numbers (`int` and `bool`, a `bool` being `0`/`1`)
compare numerically, strings and lists of strings lexicographically;
`None` and cross-kind comparisons are unsupported. -/
def pyLt : Value → Value → Option Bool
  | Value.int m, Value.int n => some (decide (m < n))
  | Value.int m, Value.bool b => some (decide (m < if b then 1 else 0))
  | Value.bool a, Value.int n => some (decide ((if a then (1 : Int) else 0) < n))
  | Value.bool a, Value.bool b =>
      some (decide ((if a then (1 : Int) else 0) < if b then 1 else 0))
  | Value.str s, Value.str t => some (decide (s < t))
  | Value.list l, Value.list m => some (strListLt l m)
  | _, _ => none
where
  /-- Python list `<`: lexicographic, a strict prefix is smaller. -/
  strListLt : List String → List String → Bool
  | _, [] => false
  | [], _ :: _ => true
  | a :: as, b :: bs =>
    if a < b then true else if b < a then false else strListLt as bs

/-- `itemgetter(field)` over the whole record set: `sorted` computes
every key before comparing any; a record without the field raises
`KeyError` (the embedded message stands in for Python's). -/
def getKeys (data : List Rec) (field : String) : Except String (List Value) :=
  match data with
  | [] => Except.ok []
  | item :: rest =>
    match rlookup item field with
    | none => Except.error ("KeyError: " ++ field)
    | some v =>
      match getKeys rest field with
      | Except.error e => Except.error e
      | Except.ok vs => Except.ok (v :: vs)

/-- CPython `sorted` raises `TypeError` exactly when the key sequence
holds two (distinct-position) mutually incomparable keys: comparability
of the embedded values partitions them into classes (numbers, strings,
lists, with `None` comparable to nothing including itself), and a
comparison sort must compare across any two inhabited classes. -/
def allComparable : List Value → Bool
  | [] => true
  | k :: ks => ks.all (fun k2 => (pyLt k k2).isSome) && allComparable ks

/-- Strict "goes before" used by the embedded stable sort: ascending by
`pyLt`, or descending when `reverse` is set (CPython implements
`reverse=True` stably, equal keys keep declaration order). -/
def sortBefore (reverse : Bool) (a b : Value) : Bool :=
  ((if reverse then pyLt b a else pyLt a b).getD false)

/-- Insert a keyed record before the first strictly later entry: the
stable insertion step of the embedded sort. -/
def insertSorted (reverse : Bool) (x : Value × Rec) :
    List (Value × Rec) → List (Value × Rec)
  | [] => [x]
  | y :: ys =>
    if sortBefore reverse x.1 y.1 then x :: y :: ys
    else y :: insertSorted reverse x ys

/-- Stable sort of the keyed records (the embedding of Timsort's
input/output contract: stable, ordered by the key). -/
def insertionSort (reverse : Bool) (pairs : List (Value × Rec)) :
    List (Value × Rec) :=
  pairs.foldl (fun acc x => insertSorted reverse x acc) []

/-- `DataProcessor._apply_sort`: `sorted(data, key=itemgetter(field),
reverse=reverse)`. -/
def applySort (data : List Rec) (field : String) (reverse : Bool) :
    Except String (List Rec) :=
  match getKeys data field with
  | Except.error e => Except.error e
  | Except.ok keys =>
    if allComparable keys then
      Except.ok ((insertionSort reverse (keys.zip data)).map Prod.snd)
    else Except.error "TypeError: unorderable values"

/-- Whether Python can hash the value, i.e. use it as a dict key: the
embedded kinds are all hashable except `list` (`None`, `str`, `int`
and `bool` are; `list` raises `TypeError: unhashable type: list`). -/
def pyHashable : Value → Bool
  | Value.list _ => false
  | _ => true

/-- One dict update of the `groups` dict of `_apply_group_by`, for a
key that hashed successfully: ordered list of (first-seen key object,
records of the group); `group_key not in groups` is Python `==`
(`pyEq`), membership keeps the stored key. -/
def addToGroup (gs : List (Value × List Rec)) (k : Value) (item : Rec) :
    List (Value × List Rec) :=
  match gs with
  | [] => [(k, [item])]
  | (k', items) :: rest =>
    if pyEq k' k then (k', items ++ [item]) :: rest
    else (k', items) :: addToGroup rest k item

/-- The grouping loop of `_apply_group_by` over the whole record set:
`group_key not in groups` hashes the key, so the loop raises
`TypeError` at the first record whose `field` value is a list. -/
def buildGroups (data : List Rec) (field : String) :
    Except String (List (Value × List Rec)) :=
  data.foldlM
    (fun gs item =>
      if pyHashable (rget item field) then
        Except.ok (addToGroup gs (rget item field) item)
      else Except.error "TypeError: unhashable type: list")
    []

/-- The grouping fold in the hashable case: what the loop computes
when no key raises. -/
def buildGroupsOk (data : List Rec) (field : String) :
    List (Value × List Rec) :=
  data.foldl (fun gs item => addToGroup gs (rget item field) item) []

/-- The aggregation body of `_apply_group_by` for one `(agg_field,
agg_func)` pair: collect the non-`None` values of `agg_field` in the
group (`item.get(agg_field) is not None` is an identity test, hence
structural here), apply `agg_func` when any exist, else `None`. -/
def aggValues (items : List Rec) (aggField : String) : List Value :=
  items.filterMap (fun item =>
    let v := rget item aggField
    if v = Value.null then none else some v)

/-- One aggregation assignment of `_apply_group_by`'s inner loop:
`group_result[agg_field] = agg_func(values) if values else None`, a
raised exception propagating. -/
def aggStep (items : List Rec) (d : Rec) (p : String × AggFn) :
    Except String Rec :=
  let vals := aggValues items p.1
  match (if vals.isEmpty then Except.ok Value.null else p.2 vals) with
  | Except.error e => Except.error e
  | Except.ok v => Except.ok (dictInsert d p.1 v)

/-- One output record of `_apply_group_by`: start from
`{field: group_key}` and assign each aggregation result in declaration
order (dict assignment may overwrite `field` itself). -/
def buildGroupRec (field : String) (aggregation : List (String × AggFn))
    (g : Value × List Rec) : Except String Rec :=
  aggregation.foldlM (aggStep g.2) [(field, g.1)]

/-- `DataProcessor._apply_group_by`: the grouping loop runs first (and
may raise on an unhashable key), then the aggregation loop over the
groups in insertion order. -/
def applyGroupBy (data : List Rec) (field : String)
    (aggregation : List (String × AggFn)) : Except String (List Rec) :=
  match buildGroups data field with
  | Except.error e => Except.error e
  | Except.ok groups => groups.mapM (buildGroupRec field aggregation)

/-- Python `data[:n]` for an `int` bound (negative bounds count from
the end). -/
def pySlice (data : List Rec) (n : Int) : List Rec :=
  if 0 ≤ n then data.take n.toNat
  else data.take (data.length - min n.natAbs data.length)

/-- `DataProcessor._apply_limit`. -/
def applyLimit (data : List Rec) (n : Int) : List Rec :=
  pySlice data n

/-- Dispatch of one operator inside `execute()`'s loop (the `try`
body). -/
def applyOp : Op → List Rec → Except String (List Rec)
  | Op.select fields, data => Except.ok (applySelect data fields)
  | Op.whereOp condition, data => applyWhere data condition
  | Op.sort field reverse, data => applySort data field reverse
  | Op.group_by field aggregation, data => applyGroupBy data field aggregation
  | Op.limit n, data => Except.ok (applyLimit data n)

/-- The `except` clause of `execute()`: re-raise as
`RuntimeError("Ошибка при выполнении операции {op_type}: {e}")`. -/
def wrapMsg (op : Op) (e : String) : String :=
  "Ошибка при выполнении операции " ++ opType op ++ ": " ++ e

/-- The operator loop of `execute()`: apply each operator in order,
wrapping the first failure and aborting there. -/
def applyOps (ops : List Op) (data : List Rec) : Except String (List Rec) :=
  match ops with
  | [] => Except.ok data
  | op :: rest =>
    match applyOp op data with
    | Except.error e => Except.error (wrapMsg op e)
    | Except.ok result => applyOps rest result

/-- The positions `j` in `[blo, bhi)` with `b[j] = c`: difflib's
`b2j[a[i]]` restricted to the current window, in increasing order. -/
def jIndices (b : List Char) (blo bhi : Nat) (c : Char) : List Nat :=
  (List.range b.length).filter
    (fun j => decide (blo ≤ j) && decide (j < bhi) && (b.getD j c == c))

/-- Lookup in the `j2len` map of `find_longest_match` (`0` when
absent, matching `j2len.get(j-1, 0)`; Python's `-1` index is never a
stored key). -/
def j2lenGet (m : List (Nat × Nat)) (j : Nat) : Nat :=
  match m.find? (fun p => p.1 == j) with
  | some p => p.2
  | none => 0

/-- One row of `SequenceMatcher.find_longest_match`'s dynamic program:
`k = j2len.get(j-1, 0) + 1` extends a diagonal run; the best block is
updated when `k > bestsize`.  State: (`newj2len`, (besti, bestj,
bestsize)). -/
def flmRow (j2len : List (Nat × Nat)) (i : Nat) (row : List Nat)
    (best : Nat × Nat × Nat) : List (Nat × Nat) × (Nat × Nat × Nat) :=
  row.foldl
    (fun st j =>
      let k := (if j = 0 then 0 else j2lenGet j2len (j - 1)) + 1
      let nj2 := (j, k) :: st.1
      if st.2.2.2 < k then (nj2, (i + 1 - k, j + 1 - k, k)) else (nj2, st.2))
    ([], best)

/-- `SequenceMatcher.find_longest_match(alo, ahi, blo, bhi)` without
junk (no string here reaches the autojunk threshold, and the junk
extension loops are no-ops): returns (besti, bestj, bestsize). -/
def flm (a b : List Char) (alo ahi blo bhi : Nat) : Nat × Nat × Nat :=
  (((List.range ahi).drop alo).foldl
    (fun st i =>
      flmRow st.1 i (jIndices b blo bhi (a.getD i (Char.ofNat 0))) st.2)
    ([], (alo, blo, 0))).2

/-- Total size of `SequenceMatcher.get_matching_blocks`: recurse left
and right of the longest match (the fuel strictly dominates the
recursion depth). -/
def matchingSize (fuel : Nat) (a b : List Char) (alo ahi blo bhi : Nat) : Nat :=
  match fuel with
  | 0 => 0
  | fuel + 1 =>
    let r := flm a b alo ahi blo bhi
    if r.2.2 = 0 then 0
    else
      matchingSize fuel a b alo r.1 blo r.2.1 + r.2.2
        + matchingSize fuel a b (r.1 + r.2.2) ahi (r.2.1 + r.2.2) bhi

/-- Matched character count of `SequenceMatcher(None, x, w)`. -/
def pyMatches (x w : String) : Nat :=
  matchingSize (x.data.length + w.data.length + 1) x.data w.data
    0 x.data.length 0 w.data.length

/-- `SequenceMatcher.ratio()` as an exact rational: `2*M / (len(a) +
len(b))` (`1` for two empty strings); float rounding cannot reorder
these small rationals, so every comparison difflib performs on the
float is a comparison of this rational. -/
def pyRatio (x w : String) : ℚ :=
  let t : Nat := x.data.length + w.data.length
  if t = 0 then 1 else (2 * (pyMatches x w : ℚ)) / (t : ℚ)

/-- The ratio as an exact fraction numerator/denominator pair
(`(1, 1)` for two empty strings, whose ratio is defined as `1.0`). -/
def ratioFrac (x w : String) : Nat × Nat :=
  let t : Nat := x.data.length + w.data.length
  if t = 0 then (1, 1) else (2 * pyMatches x w, t)

/-- Strict order of two exact ratio fractions (positive denominators,
so cross-multiplication decides the float comparison). -/
def ratioLt (p q : Nat × Nat) : Bool :=
  decide (p.1 * q.2 < q.1 * p.2)

/-- Equality of two exact ratio fractions. -/
def ratioEqb (p q : Nat × Nat) : Bool :=
  p.1 * q.2 == q.1 * p.2

/-- The `ratio() >= cutoff` test for `cutoff = 0.6`: `2M/T ≥ 3/5`,
i.e. `10M ≥ 3T` (two empty strings give `0 ≥ 0`, matching their
defined ratio `1.0 ≥ 0.6`). -/
def cutoffOk (x w : String) : Bool :=
  decide (3 * (x.data.length + w.data.length) ≤ 10 * pyMatches x w)

/-- The descending comparison `heapq.nlargest` uses on `(ratio, x)`
pairs: by ratio, ties by Python string comparison (here the
code-point lexicographic order of `String`). -/
def pairGt (p q : (Nat × Nat) × String) : Bool :=
  ratioLt q.1 p.1 || (ratioEqb p.1 q.1 && decide (q.2 < p.2))

/-- Stable descending insertion: an element is placed after every
earlier element it does not strictly exceed (the contract of
`sorted(..., reverse=True)[:n]`, which `nlargest` implements). -/
def insertDesc (x : (Nat × Nat) × String) :
    List ((Nat × Nat) × String) → List ((Nat × Nat) × String)
  | [] => [x]
  | y :: ys => if pairGt x y then x :: y :: ys else y :: insertDesc x ys

/-- Stable descending sort of the scored candidates. -/
def sortDesc (l : List ((Nat × Nat) × String)) : List ((Nat × Nat) × String) :=
  l.foldl (fun acc x => insertDesc x acc) []

/-- `difflib.get_close_matches(word, possibilities, n, cutoff=0.6)`:
keep the candidates whose ratio reaches the cutoff (the
`real_quick_ratio`/`quick_ratio` pre-checks are upper bounds of
`ratio`, so the triple test is equivalent), rank them descending,
return the best `n`. -/
def getCloseMatches (word : String) (possibilities : List String) (n : Nat) :
    List String :=
  let candidates := possibilities.filter (fun x => cutoffOk x word)
  (((sortDesc (candidates.map (fun x => (ratioFrac x word, x)))).take n).map
    Prod.snd)

/-- The error text of `_validate_fields` for a missing field (modulo
the single quotes around the field name, elided here). -/
def mkFieldError (field : String) (available : List String) : String :=
  let similar := getCloseMatches field available 3
  let base := "Поле " ++ field ++ " не существует в данных."
  if similar.isEmpty then
    base ++ " Доступные поля: " ++ String.intercalate ", " available
  else
    base ++ " Возможно, вы имели в виду: " ++ String.intercalate ", " similar

/-- `DataProcessor._validate_fields`: scan the requested fields in
order and raise on the first one missing from `available_fields`. -/
def validateFields (available : List String) : List String → Except String Unit
  | [] => Except.ok ()
  | f :: rest =>
    if f ∈ available then validateFields available rest
    else Except.error (mkFieldError f available)

/-- The `DataProcessor` object state: the constructor snapshot
`original_data`, the pending `operations`, and `available_fields`
derived from the first record's keys (empty schema for empty data). -/
structure DataProcessor where
  original_data : List Rec
  operations : List Op
  available_fields : List String

/-- `DataProcessor.__init__`. -/
def DataProcessor.mk' (data : List Rec) : DataProcessor :=
  { original_data := data
    operations := []
    available_fields :=
      match data with
      | [] => []
      | r :: _ => r.map Prod.fst }

/-- `DataProcessor.select`: validate, then append `("select", fields)`;
a validation error propagates before the append. -/
def DataProcessor.select (s : DataProcessor) (fields : List String) :
    Except String DataProcessor :=
  match validateFields s.available_fields fields with
  | Except.error e => Except.error e
  | Except.ok _ =>
    Except.ok { s with operations := s.operations ++ [Op.select fields] }

/-- `DataProcessor.where`: append `("where", condition)`, never fails. -/
def DataProcessor.whereM (s : DataProcessor) (condition : Cond) : DataProcessor :=
  { s with operations := s.operations ++ [Op.whereOp condition] }

/-- `DataProcessor.sort`: validate the field, then append
`("sort", field, reverse)`. -/
def DataProcessor.sortM (s : DataProcessor) (field : String) (reverse : Bool) :
    Except String DataProcessor :=
  match validateFields s.available_fields [field] with
  | Except.error e => Except.error e
  | Except.ok _ =>
    Except.ok { s with operations := s.operations ++ [Op.sort field reverse] }

/-- `DataProcessor.group_by`: validate the grouping field, then (only
when the aggregation dict is non-empty, `if aggregation:`) its keys,
then append. -/
def DataProcessor.group_by (s : DataProcessor) (field : String)
    (aggregation : List (String × AggFn)) : Except String DataProcessor :=
  match validateFields s.available_fields [field] with
  | Except.error e => Except.error e
  | Except.ok _ =>
    match
      (if aggregation.isEmpty then Except.ok ()
       else validateFields s.available_fields (aggregation.map Prod.fst)) with
    | Except.error e => Except.error e
    | Except.ok _ =>
      Except.ok
        { s with operations := s.operations ++ [Op.group_by field aggregation] }

/-- `DataProcessor.limit`: append `("limit", n)`, never fails. -/
def DataProcessor.limitM (s : DataProcessor) (n : Int) : DataProcessor :=
  { s with operations := s.operations ++ [Op.limit n] }

/-- `DataProcessor.execute`: empty data short-circuits to `[]` (before
planning, before the loop, and before the final `operations.clear()`);
otherwise run the planned operators over `original_data.copy()` (a
value in this embedding) and clear the pending list. -/
def DataProcessor.execute (s : DataProcessor) :
    Except String (List Rec × DataProcessor) :=
  if s.original_data.isEmpty then Except.ok ([], s)
  else
    match applyOps (optimizeOperationsOrder s.operations) s.original_data with
    | Except.error e => Except.error e
    | Except.ok result => Except.ok (result, { s with operations := [] })

/-- The 24 expected columns of the repository's `CSVReader`: the schema
every `DataProcessor` built from its output validates against. -/
def expectedColumns : List String :=
  ["Name", "Description", "URL", "Created At", "Updated At", "Homepage",
   "Size", "Stars", "Forks", "Issues", "Watchers", "Language", "License",
   "Topics", "Has Issues", "Has Projects", "Has Downloads", "Has Wiki",
   "Has Pages", "Has Discussions", "Is Fork", "Is Archived", "Is Template",
   "Default Branch"]

/-- A builder over empty data with one pending operator that would
fail on any non-empty data (sorting a missing field). -/
def emptyProc : DataProcessor :=
  { original_data := []
    operations := [Op.sort "x" false]
    available_fields := [] }

/-- A successful `execute()` on empty data that does NOT clear the
pending operator list. -/
def emptyProcPending : DataProcessor :=
  { original_data := []
    operations := [Op.limit 3]
    available_fields := [] }

/-- A non-empty one-record builder with one pending limit operation. -/
def oneRecProc : DataProcessor :=
  { original_data := [[("a", Value.int 1)]]
    operations := [Op.limit 5]
    available_fields := ["a"] }

/-- A two-record builder whose single pending operation is
`limit(1)`. -/
def twoRecProc : DataProcessor :=
  { original_data := [[("a", Value.int 1)], [("a", Value.int 2)]]
    operations := [Op.limit 1]
    available_fields := ["a"] }

/-- Two records whose sort key is `None` in both: Python raises
`TypeError` comparing them, so a pending `sort` fails at execution. -/
def nullSortProc : DataProcessor :=
  { original_data := [[("a", Value.null)], [("a", Value.null)]]
    operations := [Op.sort "a" false]
    available_fields := ["a"] }

/-- The first requested field missing from the schema — the one
`_validate_fields`' loop raises about. -/
def firstAbsent (available fields : List String) : Option String :=
  fields.find? (fun f => !available.contains f)

/-- A builder whose schema is the repository's 24 CSV columns. -/
def reposProc : DataProcessor :=
  { original_data := [expectedColumns.map (fun c => (c, Value.null))]
    operations := []
    available_fields := expectedColumns }

/-- The first-seen distinct group keys of `field` over the record set,
in encounter order: the key sequence of the `groups` dict. -/
def seenKeys (data : List Rec) (field : String) : List Value :=
  data.foldl
    (fun ks item =>
      if ks.any (fun k => pyEq k (rget item field)) then ks
      else ks ++ [rget item field]) []

/-- One aggregation result as the specification states it: the
aggregation applied to the group's non-null values of `aggField`, null
when every such value is null (the error arm is unreachable for the
total aggregation callables the claim quantifies over). -/
def aggSpecValue (items : List Rec) (aggField : String) (fn : AggFn) : Value :=
  let vals := aggValues items aggField
  if vals.isEmpty then Value.null
  else
    match fn vals with
    | Except.ok v => v
    | Except.error _ => Value.null

/-- The record set of the spec's group-by scenario. -/
def gData : List Rec :=
  [[("Language", Value.str "Go"), ("Stars", Value.int 10)],
   [("Language", Value.str "Go"), ("Stars", Value.int 30)],
   [("Language", Value.null), ("Stars", Value.int 50)]]

/-- A total aggregation callable: the count of the collected values. -/
def countAgg : AggFn := fun vals => Except.ok (Value.int vals.length)

/-- A record whose `Topics` field is a list of strings, as the
repository's CSV reader produces; grouping by `Topics` makes
`_apply_group_by` raise `TypeError: unhashable type: list`. -/
def topicsData : List Rec :=
  [[("Name", Value.str "a"), ("Topics", Value.list ["web", "api"])]]

lemma optimizeOperationsOrder_eq (ops : List Op) :
    optimizeOperationsOrder ops =
      ops.filter (fun op => opType op == "where")
        ++ ops.filter (fun op => opType op == "group_by")
        ++ ops.filter (fun op => opType op == "sort")
        ++ ops.filter (fun op => opType op == "select")
        ++ ops.filter (fun op => opType op == "limit") := by
  unfold optimizeOperationsOrder
  cases ops with
  | nil => simp
  | cons op rest => simp

lemma perm_ins1 {α : Type} (x : α) (A B C D E : List α) :
    ((x :: A) ++ B ++ C ++ D ++ E).Perm (x :: (A ++ B ++ C ++ D ++ E)) := by
  simp [List.append_assoc]

lemma perm_ins2 {α : Type} (x : α) (A B C D E : List α) :
    (A ++ (x :: B) ++ C ++ D ++ E).Perm (x :: (A ++ B ++ C ++ D ++ E)) := by
  have h : (A ++ x :: B).Perm (x :: (A ++ B)) := List.perm_middle
  have h2 := h.append_right (C ++ D ++ E)
  simp only [List.append_assoc, List.cons_append] at h2 ⊢
  exact h2

lemma perm_ins3 {α : Type} (x : α) (A B C D E : List α) :
    (A ++ B ++ (x :: C) ++ D ++ E).Perm (x :: (A ++ B ++ C ++ D ++ E)) := by
  have h : ((A ++ B) ++ x :: C).Perm (x :: (A ++ B ++ C)) := List.perm_middle
  have h2 := h.append_right (D ++ E)
  simpa [List.append_assoc] using h2

lemma perm_ins4 {α : Type} (x : α) (A B C D E : List α) :
    (A ++ B ++ C ++ (x :: D) ++ E).Perm (x :: (A ++ B ++ C ++ D ++ E)) := by
  have h : ((A ++ B ++ C) ++ x :: D).Perm (x :: (A ++ B ++ C ++ D)) := List.perm_middle
  have h2 := h.append_right E
  simpa [List.append_assoc] using h2

lemma perm_ins5 {α : Type} (x : α) (A B C D E : List α) :
    (A ++ B ++ C ++ D ++ (x :: E)).Perm (x :: (A ++ B ++ C ++ D ++ E)) :=
  List.perm_middle

lemma optimize_perm (ops : List Op) :
    (optimizeOperationsOrder ops).Perm ops := by
  rw [optimizeOperationsOrder_eq]
  induction ops with
  | nil => simp
  | cons op rest ih =>
    cases op with
    | select fields =>
      exact List.Perm.trans
        (perm_ins4 (Op.select fields)
          (rest.filter (fun op => opType op == "where"))
          (rest.filter (fun op => opType op == "group_by"))
          (rest.filter (fun op => opType op == "sort"))
          (rest.filter (fun op => opType op == "select"))
          (rest.filter (fun op => opType op == "limit")))
        (ih.cons (Op.select fields))
    | whereOp c =>
      exact List.Perm.trans
        (perm_ins1 (Op.whereOp c)
          (rest.filter (fun op => opType op == "where"))
          (rest.filter (fun op => opType op == "group_by"))
          (rest.filter (fun op => opType op == "sort"))
          (rest.filter (fun op => opType op == "select"))
          (rest.filter (fun op => opType op == "limit")))
        (ih.cons (Op.whereOp c))
    | sort f r =>
      exact List.Perm.trans
        (perm_ins3 (Op.sort f r)
          (rest.filter (fun op => opType op == "where"))
          (rest.filter (fun op => opType op == "group_by"))
          (rest.filter (fun op => opType op == "sort"))
          (rest.filter (fun op => opType op == "select"))
          (rest.filter (fun op => opType op == "limit")))
        (ih.cons (Op.sort f r))
    | group_by f a =>
      exact List.Perm.trans
        (perm_ins2 (Op.group_by f a)
          (rest.filter (fun op => opType op == "where"))
          (rest.filter (fun op => opType op == "group_by"))
          (rest.filter (fun op => opType op == "sort"))
          (rest.filter (fun op => opType op == "select"))
          (rest.filter (fun op => opType op == "limit")))
        (ih.cons (Op.group_by f a))
    | limit n =>
      exact List.Perm.trans
        (perm_ins5 (Op.limit n)
          (rest.filter (fun op => opType op == "where"))
          (rest.filter (fun op => opType op == "group_by"))
          (rest.filter (fun op => opType op == "sort"))
          (rest.filter (fun op => opType op == "select"))
          (rest.filter (fun op => opType op == "limit")))
        (ih.cons (Op.limit n))

/-- C1: for every declared operator list the planner emits exactly the
input operators (a permutation), laid out as all `where` (Filter)
operators first, then all `group_by`, then all `sort`, then all
`select`, then all `limit` operators, each block keeping the relative
declaration order (each block is a `filter` of the input). -/
theorem planner_canonical_order (ops : List Op) :
    optimizeOperationsOrder ops =
      ops.filter (fun op => opType op == "where")
        ++ ops.filter (fun op => opType op == "group_by")
        ++ ops.filter (fun op => opType op == "sort")
        ++ ops.filter (fun op => opType op == "select")
        ++ ops.filter (fun op => opType op == "limit")
    ∧ (optimizeOperationsOrder ops).Perm ops :=
  ⟨optimizeOperationsOrder_eq ops, optimize_perm ops⟩

lemma filter_tags_ne (t t' : String) (h : (t == t') = false) (l : List Op) :
    l.filter (fun a => (opType a == t) && (opType a == t')) = [] := by
  rw [List.filter_eq_nil_iff]
  intro a _ hc
  simp only [Bool.and_eq_true, beq_iff_eq] at hc
  have ht : t = t' := hc.1.symm.trans hc.2
  simp [ht] at h

lemma filter_tags_same (t : String) (l : List Op) :
    l.filter (fun a => (opType a == t) && (opType a == t))
      = l.filter (fun a => opType a == t) := by
  apply List.filter_congr
  intro a _
  rw [Bool.and_self]

/-- C8: the planner is idempotent: reordering an already reordered
operator list changes nothing, so reordering an already-canonical
sequence is a no-op. -/
theorem optimize_idempotent (ops : List Op) :
    optimizeOperationsOrder (optimizeOperationsOrder ops)
      = optimizeOperationsOrder ops := by
  rw [optimizeOperationsOrder_eq ops]
  rw [optimizeOperationsOrder_eq]
  simp only [List.filter_append, List.filter_filter]
  simp only [filter_tags_same,
    filter_tags_ne "where" "group_by" rfl, filter_tags_ne "where" "sort" rfl,
    filter_tags_ne "where" "select" rfl, filter_tags_ne "where" "limit" rfl,
    filter_tags_ne "group_by" "where" rfl, filter_tags_ne "group_by" "sort" rfl,
    filter_tags_ne "group_by" "select" rfl, filter_tags_ne "group_by" "limit" rfl,
    filter_tags_ne "sort" "where" rfl, filter_tags_ne "sort" "group_by" rfl,
    filter_tags_ne "sort" "select" rfl, filter_tags_ne "sort" "limit" rfl,
    filter_tags_ne "select" "where" rfl, filter_tags_ne "select" "group_by" rfl,
    filter_tags_ne "select" "sort" rfl, filter_tags_ne "select" "limit" rfl,
    filter_tags_ne "limit" "where" rfl, filter_tags_ne "limit" "group_by" rfl,
    filter_tags_ne "limit" "sort" rfl, filter_tags_ne "limit" "select" rfl]
  simp

/-- C10: a builder over an empty record set short-circuits:
`execute()` returns `[]` and leaves the whole state — in particular the
pending operator list — untouched, applying (and therefore never
failing on) no operator. -/
theorem execute_empty_short_circuit (s : DataProcessor)
    (h : s.original_data = []) : s.execute = Except.ok ([], s) := by
  unfold DataProcessor.execute
  rw [h]
  rfl

theorem execute_empty_short_circuit_witness :
    emptyProc.original_data = [] ∧ emptyProc.execute = Except.ok ([], emptyProc) :=
  ⟨rfl, execute_empty_short_circuit emptyProc rfl⟩

/-- C6 counterexample: `execute()` succeeds on an empty record set but
returns with the pending operator list still non-empty, because the
empty-data early return at the top of `execute` skips
`self.operations.clear()`. -/
theorem execute_clears_ops_cex :
    emptyProcPending.execute = Except.ok ([], emptyProcPending)
      ∧ emptyProcPending.operations ≠ [] := by
  constructor
  · rfl
  · simp [emptyProcPending]

/-- C6 (amended): after every successful `execute()` on a builder whose
original record set is non-empty, the pending operator list is empty;
the empty-data early return leaves it untouched. -/
theorem execute_nonempty_clears_ops (s : DataProcessor) (res : List Rec)
    (s2 : DataProcessor) (h : s.original_data ≠ [])
    (hex : s.execute = Except.ok (res, s2)) : s2.operations = [] := by
  have hne : s.original_data.isEmpty = false := by
    simpa [List.isEmpty_iff] using h
  unfold DataProcessor.execute at hex
  rw [hne] at hex
  simp only [Bool.false_eq_true, if_false] at hex
  cases happ : applyOps (optimizeOperationsOrder s.operations) s.original_data with
  | error e => rw [happ] at hex; cases hex
  | ok result =>
    rw [happ] at hex
    simp only [Except.ok.injEq, Prod.mk.injEq] at hex
    rw [← hex.2]

theorem execute_nonempty_clears_ops_witness :
    oneRecProc.original_data ≠ []
      ∧ oneRecProc.execute
          = Except.ok ([[("a", Value.int 1)]],
              { original_data := [[("a", Value.int 1)]]
                operations := []
                available_fields := ["a"] })
      ∧ (({ original_data := [[("a", Value.int 1)]]
            operations := []
            available_fields := ["a"] } : DataProcessor)).operations = [] := by
  refine ⟨by simp [oneRecProc], by rfl, ?_⟩
  exact execute_nonempty_clears_ops oneRecProc [[("a", Value.int 1)]] _
    (by simp [oneRecProc]) (by rfl)

/-- C9: `execute()` never replaces the snapshot the builder was
constructed from: on success the returned state keeps `original_data`
(and the schema) unchanged, every operator step having produced a new
record set in this pure embedding. -/
theorem execute_preserves_original (s : DataProcessor) (res : List Rec)
    (s2 : DataProcessor) (hex : s.execute = Except.ok (res, s2)) :
    s2.original_data = s.original_data
      ∧ s2.available_fields = s.available_fields := by
  unfold DataProcessor.execute at hex
  by_cases hemp : s.original_data.isEmpty
  · rw [hemp] at hex
    simp only [if_true] at hex
    simp only [Except.ok.injEq, Prod.mk.injEq] at hex
    rw [← hex.2]
    exact ⟨rfl, rfl⟩
  · rw [Bool.of_not_eq_true hemp] at hex
    simp only [Bool.false_eq_true, if_false] at hex
    cases happ : applyOps (optimizeOperationsOrder s.operations) s.original_data with
    | error e => rw [happ] at hex; cases hex
    | ok result =>
      rw [happ] at hex
      simp only [Except.ok.injEq, Prod.mk.injEq] at hex
      rw [← hex.2]
      exact ⟨rfl, rfl⟩

theorem execute_preserves_original_witness :
    oneRecProc.execute
        = Except.ok ([[("a", Value.int 1)]],
            { original_data := [[("a", Value.int 1)]]
              operations := []
              available_fields := ["a"] })
      ∧ ({ original_data := [[("a", Value.int 1)]]
           operations := []
           available_fields := ["a"] } : DataProcessor).original_data
          = oneRecProc.original_data := by
  refine ⟨by rfl, ?_⟩
  exact (execute_preserves_original oneRecProc [[("a", Value.int 1)]] _ (by rfl)).1

lemma applyOps_append (l1 l2 : List Op) (data : List Rec) :
    applyOps (l1 ++ l2) data =
      match applyOps l1 data with
      | Except.error e => Except.error e
      | Except.ok d => applyOps l2 d := by
  induction l1 generalizing data with
  | nil => rfl
  | cons op rest ih =>
    simp only [List.cons_append, applyOps]
    cases applyOp op data with
    | error e => rfl
    | ok r => exact ih r

lemma applyOp_nil (op : Op) : applyOp op [] = Except.ok [] := by
  cases op <;> first
    | rfl
    | simp [applyOp, applyLimit, pySlice]

lemma applyOps_nil_data (ops : List Op) : applyOps ops [] = Except.ok [] := by
  induction ops with
  | nil => rfl
  | cons op rest ih =>
    simp only [applyOps, applyOp_nil]
    exact ih

lemma filter_single_limit (t : String) (n : Int) (h : (t == "limit") = false) :
    List.filter (fun op => opType op == t) [Op.limit n] = [] := by
  simp only [List.filter_cons, List.filter_nil, opType]
  rw [BEq.comm] at h
  rw [h]
  simp

lemma optimize_snoc_limit (ops0 : List Op) (n : Int)
    (hnl : ∀ op ∈ ops0, opType op ≠ "limit") :
    optimizeOperationsOrder (ops0 ++ [Op.limit n])
      = optimizeOperationsOrder ops0 ++ [Op.limit n] := by
  rw [optimizeOperationsOrder_eq (ops0 ++ [Op.limit n]),
    optimizeOperationsOrder_eq ops0]
  have hl0 : ops0.filter (fun op => opType op == "limit") = [] := by
    rw [List.filter_eq_nil_iff]
    intro op hop
    simpa using hnl op hop
  simp only [List.filter_append, hl0,
    filter_single_limit "where" n rfl, filter_single_limit "group_by" n rfl,
    filter_single_limit "sort" n rfl, filter_single_limit "select" n rfl]
  have hll : List.filter (fun op => opType op == "limit") [Op.limit n]
      = [Op.limit n] := by rfl
  rw [hll]
  simp

/-- C5: when the declared operations end with the only `limit(n)`
operator (`n ≥ 0`), the planner keeps it last, and a successful
`execute()` returns the first `min(n, len(d))` records of the record
set `d` produced by the preceding operators, in order; in particular
`len(execute()) = min(n, len(d))` and `n ≥ len(d)` truncates
nothing. -/
theorem limit_last_min_length (s : DataProcessor) (ops0 : List Op) (n : Int)
    (res : List Rec) (s2 : DataProcessor)
    (hops : s.operations = ops0 ++ [Op.limit n])
    (hnl : ∀ op ∈ ops0, opType op ≠ "limit")
    (hn : 0 ≤ n)
    (hex : s.execute = Except.ok (res, s2)) :
    optimizeOperationsOrder s.operations
        = optimizeOperationsOrder ops0 ++ [Op.limit n]
      ∧ ∃ d, applyOps (optimizeOperationsOrder ops0) s.original_data
              = Except.ok d
          ∧ res = d.take n.toNat
          ∧ res.length = min n.toNat d.length := by
  have hopt : optimizeOperationsOrder s.operations
      = optimizeOperationsOrder ops0 ++ [Op.limit n] := by
    rw [hops]; exact optimize_snoc_limit ops0 n hnl
  refine ⟨hopt, ?_⟩
  unfold DataProcessor.execute at hex
  by_cases hemp : s.original_data.isEmpty
  · rw [hemp] at hex
    simp only [if_true] at hex
    simp only [Except.ok.injEq, Prod.mk.injEq] at hex
    have hdat : s.original_data = [] := by
      exact List.isEmpty_iff.mp hemp
    refine ⟨[], ?_, ?_, ?_⟩
    · rw [hdat]; exact applyOps_nil_data _
    · simp [← hex.1]
    · simp [← hex.1]
  · rw [Bool.of_not_eq_true hemp] at hex
    simp only [Bool.false_eq_true, if_false] at hex
    cases happ : applyOps (optimizeOperationsOrder s.operations) s.original_data with
    | error e => rw [happ] at hex; cases hex
    | ok result =>
      rw [happ] at hex
      simp only [Except.ok.injEq, Prod.mk.injEq] at hex
      rw [hopt, applyOps_append] at happ
      cases hd : applyOps (optimizeOperationsOrder ops0) s.original_data with
      | error e => rw [hd] at happ; cases happ
      | ok d =>
        rw [hd] at happ
        simp only [applyOps, applyOp, applyLimit] at happ
        have hres : res = pySlice d n := by
          cases happ
          exact hex.1.symm
        have htake : pySlice d n = d.take n.toNat := by
          unfold pySlice
          rw [if_pos hn]
        refine ⟨d, rfl, by rw [hres, htake], ?_⟩
        rw [hres, htake, List.length_take]

theorem limit_last_min_length_witness :
    optimizeOperationsOrder twoRecProc.operations
        = optimizeOperationsOrder [] ++ [Op.limit 1]
      ∧ ∃ d, applyOps (optimizeOperationsOrder []) twoRecProc.original_data
              = Except.ok d
          ∧ [[("a", Value.int 1)]] = d.take (Int.toNat 1)
          ∧ [[("a", Value.int 1)]].length = min (Int.toNat 1) d.length :=
  limit_last_min_length twoRecProc [] 1 [[("a", Value.int 1)]]
    { original_data := [[("a", Value.int 1)], [("a", Value.int 2)]]
      operations := []
      available_fields := ["a"] }
    rfl (by simp) (by decide) rfl

lemma applyOps_total_of_steps (ops : List Op) : ∀ data : List Rec,
    (∀ pre op post d, ops = pre ++ op :: post →
      applyOps pre data = Except.ok d → ∃ r, applyOp op d = Except.ok r) →
    ∃ r, applyOps ops data = Except.ok r := by
  induction ops with
  | nil => intro data _; exact ⟨data, rfl⟩
  | cons op rest ih =>
    intro data hstep
    obtain ⟨r, hr⟩ := hstep [] op rest data rfl rfl
    have hstep2 : ∀ pre op2 post d, rest = pre ++ op2 :: post →
        applyOps pre r = Except.ok d → ∃ r2, applyOp op2 d = Except.ok r2 := by
      intro pre op2 post d hsplit hpre
      refine hstep (op :: pre) op2 post d (by rw [hsplit]; rfl) ?_
      simp only [applyOps, hr]
      exact hpre
    obtain ⟨rr, hrr⟩ := ih r hstep2
    refine ⟨rr, ?_⟩
    simp only [applyOps, hr]
    exact hrr

/-- C7: on a non-empty record set, if the first failing operator of the
planned sequence is `op` (every operator before it succeeded, producing
`d`, and `op` fails on `d` with cause `e`), then `execute()` raises the
wrapped error naming `op`'s kind and `e`, returning no partial result;
and if every planned operator succeeds on what it receives, `execute()`
succeeds. -/
theorem execute_error_spec (s : DataProcessor) (h : s.original_data ≠ []) :
    (∀ pre op post d e,
        optimizeOperationsOrder s.operations = pre ++ op :: post →
        applyOps pre s.original_data = Except.ok d →
        applyOp op d = Except.error e →
        s.execute = Except.error (wrapMsg op e))
      ∧ ((∀ pre op post d,
            optimizeOperationsOrder s.operations = pre ++ op :: post →
            applyOps pre s.original_data = Except.ok d →
            ∃ r, applyOp op d = Except.ok r) →
          ∃ res, s.execute = Except.ok (res, { s with operations := [] })) := by
  have hne : s.original_data.isEmpty = false := by
    simpa [List.isEmpty_iff] using h
  constructor
  · intro pre op post d e hsplit hpre hop
    have hfull : applyOps (optimizeOperationsOrder s.operations) s.original_data
        = Except.error (wrapMsg op e) := by
      rw [hsplit, applyOps_append, hpre]
      simp only [applyOps, hop]
    unfold DataProcessor.execute
    rw [hne]
    simp only [Bool.false_eq_true, if_false, hfull]
  · intro hall
    obtain ⟨r, hr⟩ := applyOps_total_of_steps _ s.original_data hall
    refine ⟨r, ?_⟩
    unfold DataProcessor.execute
    rw [hne]
    simp only [Bool.false_eq_true, if_false, hr]

theorem execute_error_spec_witness :
    nullSortProc.execute
      = Except.error (wrapMsg (Op.sort "a" false)
          "TypeError: unorderable values") :=
  (execute_error_spec nullSortProc (by simp [nullSortProc])).1
    [] (Op.sort "a" false) [] nullSortProc.original_data
    "TypeError: unorderable values" rfl rfl rfl

lemma dictInsert_fresh (d : Rec) (k : String) (v : Value)
    (h : ∀ p ∈ d, p.1 ≠ k) : dictInsert d k v = d ++ [(k, v)] := by
  induction d with
  | nil => rfl
  | cons p rest ih =>
    unfold dictInsert
    rw [if_neg (h p (List.mem_cons_self p rest))]
    rw [ih (fun q hq => h q (List.mem_cons_of_mem p hq))]
    rfl

lemma foldl_dictInsert_map (fields : List String) (r : Rec) :
    ∀ d0 : Rec, fields.Nodup → (∀ f ∈ fields, ∀ p ∈ d0, p.1 ≠ f) →
    fields.foldl (fun d f => dictInsert d f (rget r f)) d0
      = d0 ++ fields.map (fun f => (f, rget r f)) := by
  induction fields with
  | nil => intro d0 _ _; simp
  | cons f rest ih =>
    intro d0 hnd hfresh
    have hstep : dictInsert d0 f (rget r f) = d0 ++ [(f, rget r f)] :=
      dictInsert_fresh d0 f (rget r f)
        (fun p hp => hfresh f (List.mem_cons_self f rest) p hp)
    simp only [List.foldl_cons, hstep]
    rw [ih (d0 ++ [(f, rget r f)]) (List.Nodup.of_cons hnd) ?_]
    · simp
    · intro g hg p hp
      rcases List.mem_append.mp hp with hp0 | hp1
      · exact hfresh g (List.mem_cons_of_mem f hg) p hp0
      · have hpf : p = (f, rget r f) := by simpa using hp1
        rw [hpf]
        intro hfg
        have hfg2 : f = g := hfg
        rw [List.nodup_cons] at hnd
        exact hnd.1 (by rw [hfg2]; exact hg)

/-- C4: `_apply_select` over pairwise-distinct requested fields projects
every record to exactly the requested fields in the requested order,
with `item.get` turning an absent field into null rather than an error;
and the `select` step of the execution loop always succeeds (in
particular on the records a preceding `group_by` produced). -/
theorem select_projection_spec (data : List Rec) (fields : List String)
    (hnd : fields.Nodup) :
    applySelect data fields
        = data.map (fun item => fields.map (fun f => (f, rget item f)))
      ∧ (∀ item f, rlookup item f = none → rget item f = Value.null)
      ∧ (∀ d fs, applyOp (Op.select fs) d = Except.ok (applySelect d fs)) := by
  refine ⟨?_, ?_, fun _ _ => rfl⟩
  · unfold applySelect
    apply List.map_congr_left
    intro item _
    rw [foldl_dictInsert_map fields item [] hnd (by simp)]
    rfl
  · intro item f hnone
    unfold rget
    rw [hnone]
    rfl

theorem select_projection_spec_witness :
    applySelect [[("Name", Value.str "b")]] ["Name", "Stars"]
      = [[("Name", Value.str "b"), ("Stars", Value.null)]] := by
  rw [(select_projection_spec [[("Name", Value.str "b")]] ["Name", "Stars"]
    (by simp)).1]
  rfl

lemma validateFields_firstAbsent (available : List String) :
    ∀ fields f, firstAbsent available fields = some f →
      validateFields available fields
        = Except.error (mkFieldError f available) := by
  intro fields
  induction fields with
  | nil => intro f h; simp [firstAbsent] at h
  | cons g rest ih =>
    intro f h
    unfold firstAbsent at h
    by_cases hg : g ∈ available
    · have hpg : (!available.contains g) = false := by simp [hg]
      rw [show List.find? (fun f => !available.contains f) (g :: rest)
            = List.find? (fun f => !available.contains f) rest from by
          simp [List.find?, hg]] at h
      unfold validateFields
      rw [if_pos hg]
      exact ih f h
    · have hpg : (!available.contains g) = true := by simp [hg]
      rw [show List.find? (fun f => !available.contains f) (g :: rest)
            = some g from by simp [List.find?, hg]] at h
      cases h
      unfold validateFields
      rw [if_neg hg]

lemma mem_insertDesc {x y : (Nat × Nat) × String}
    {l : List ((Nat × Nat) × String)} (h : y ∈ insertDesc x l) :
    y = x ∨ y ∈ l := by
  induction l with
  | nil => simpa [insertDesc] using h
  | cons z zs ih =>
    unfold insertDesc at h
    by_cases hc : pairGt x z = true
    · rw [if_pos hc] at h
      simpa using h
    · rw [if_neg hc] at h
      rcases List.mem_cons.mp h with hz | hins
      · exact Or.inr (by rw [hz]; exact List.mem_cons_self z zs)
      · rcases ih hins with he | hm
        · exact Or.inl he
        · exact Or.inr (List.mem_cons_of_mem z hm)

lemma mem_sortDesc_aux {y : (Nat × Nat) × String} :
    ∀ (l acc : List ((Nat × Nat) × String)),
      y ∈ l.foldl (fun a x => insertDesc x a) acc → y ∈ acc ∨ y ∈ l := by
  intro l
  induction l with
  | nil => intro acc h; exact Or.inl h
  | cons x xs ih =>
    intro acc h
    rcases ih (insertDesc x acc) h with hacc | hxs
    · rcases mem_insertDesc hacc with he | hm
      · exact Or.inr (by rw [he]; exact List.mem_cons_self x xs)
      · exact Or.inl hm
    · exact Or.inr (List.mem_cons_of_mem x hxs)

lemma mem_sortDesc {y : (Nat × Nat) × String} {l : List ((Nat × Nat) × String)}
    (h : y ∈ sortDesc l) : y ∈ l := by
  rcases mem_sortDesc_aux l [] h with hacc | hl
  · cases hacc
  · exact hl

lemma cutoffOk_ratio {x f : String} (h : cutoffOk x f = true) :
    (3 : ℚ) / 5 ≤ pyRatio x f := by
  unfold cutoffOk at h
  rw [decide_eq_true_iff] at h
  unfold pyRatio
  by_cases ht : x.data.length + f.data.length = 0
  · rw [if_pos ht]
    norm_num
  · rw [if_neg ht]
    have htp : (0 : ℚ) < ((x.data.length + f.data.length : Nat) : ℚ) := by
      exact_mod_cast Nat.pos_of_ne_zero ht
    rw [div_le_div_iff₀ (by norm_num) htp]
    have h2 : ((3 * (x.data.length + f.data.length) : Nat) : ℚ)
        ≤ ((10 * pyMatches x f : Nat) : ℚ) := by exact_mod_cast h
    push_cast at h2 ⊢
    linarith

lemma getCloseMatches_length (w : String) (ps : List String) (n : Nat) :
    (getCloseMatches w ps n).length ≤ n := by
  unfold getCloseMatches
  rw [List.length_map, List.length_take]
  exact min_le_left _ _

lemma getCloseMatches_mem {w x : String} {ps : List String} {n : Nat}
    (hx : x ∈ getCloseMatches w ps n) :
    x ∈ ps ∧ (3 : ℚ) / 5 ≤ pyRatio x w := by
  unfold getCloseMatches at hx
  obtain ⟨p, hp, hpx⟩ := List.mem_map.mp hx
  have hp2 := mem_sortDesc (List.take_subset n _ hp)
  obtain ⟨c, hc, hcp⟩ := List.mem_map.mp hp2
  obtain ⟨hcps, hcut⟩ := List.mem_filter.mp hc
  have hxc : x = c := by
    rw [← hpx, ← hcp]
  rw [hxc]
  exact ⟨hcps, cutoffOk_ratio hcut⟩

/-- C3: requesting a field absent from the schema through `select`,
`sort` or `group_by` (including aggregation keys) fails at declaration
time with the `_validate_fields` error for the first missing field —
the operator is never appended, no execution happens; the error's
suggestion list holds at most 3 schema entries, each with difflib
similarity at least 0.6, the message listing the suggestions when any
exist and the full schema otherwise; in particular `"Starz"` against
the repository schema gets the suggestion `"Stars"`. -/
theorem invalid_field_error_spec (s : DataProcessor) :
    (∀ fields f, firstAbsent s.available_fields fields = some f →
        s.select fields = Except.error (mkFieldError f s.available_fields))
      ∧ (∀ field rev, field ∉ s.available_fields →
          s.sortM field rev
            = Except.error (mkFieldError field s.available_fields))
      ∧ (∀ field aggs, field ∉ s.available_fields →
          s.group_by field aggs
            = Except.error (mkFieldError field s.available_fields))
      ∧ (∀ field aggs f, field ∈ s.available_fields → aggs ≠ [] →
          firstAbsent s.available_fields (aggs.map Prod.fst) = some f →
          s.group_by field aggs
            = Except.error (mkFieldError f s.available_fields))
      ∧ (∀ f avail, (getCloseMatches f avail 3).length ≤ 3
          ∧ ∀ x ∈ getCloseMatches f avail 3,
              x ∈ avail ∧ (3 : ℚ) / 5 ≤ pyRatio x f)
      ∧ (∀ f avail,
          (getCloseMatches f avail 3 = [] →
            mkFieldError f avail
              = "Поле " ++ f ++ " не существует в данных."
                  ++ " Доступные поля: " ++ String.intercalate ", " avail)
          ∧ (getCloseMatches f avail 3 ≠ [] →
            mkFieldError f avail
              = "Поле " ++ f ++ " не существует в данных."
                  ++ " Возможно, вы имели в виду: "
                  ++ String.intercalate ", " (getCloseMatches f avail 3)))
      ∧ "Stars" ∈ getCloseMatches "Starz" expectedColumns 3 := by
  refine ⟨?_, ?_, ?_, ?_, ?_, ?_, by decide⟩
  · intro fields f hf
    unfold DataProcessor.select
    rw [validateFields_firstAbsent s.available_fields fields f hf]
  · intro field rev hmem
    unfold DataProcessor.sortM
    unfold validateFields
    rw [if_neg hmem]
  · intro field aggs hmem
    unfold DataProcessor.group_by
    unfold validateFields
    rw [if_neg hmem]
  · intro field aggs f hmem hne hf
    unfold DataProcessor.group_by
    have hemp : aggs.isEmpty = false := by
      cases aggs with
      | nil => exact absurd rfl hne
      | cons a rest => rfl
    have h1 : validateFields s.available_fields [field] = Except.ok () := by
      unfold validateFields
      rw [if_pos hmem]
      rfl
    simp only [h1]
    simp only [hemp, Bool.false_eq_true, if_false]
    rw [validateFields_firstAbsent s.available_fields (aggs.map Prod.fst) f hf]
  · intro f avail
    exact ⟨getCloseMatches_length f avail 3,
      fun x hx => getCloseMatches_mem hx⟩
  · intro f avail
    constructor
    · intro hnil
      unfold mkFieldError
      rw [hnil]
      rfl
    · intro hne
      have hemp : (getCloseMatches f avail 3).isEmpty = false := by
        cases hgc : getCloseMatches f avail 3 with
        | nil => exact absurd hgc hne
        | cons a rest => rfl
      simp [mkFieldError, hemp]

theorem invalid_field_error_spec_witness :
    firstAbsent expectedColumns ["Starz"] = some "Starz"
      ∧ reposProc.select ["Starz"]
          = Except.error (mkFieldError "Starz" expectedColumns)
      ∧ "Stars" ∈ getCloseMatches "Starz" expectedColumns 3 := by
  refine ⟨by decide, ?_, (invalid_field_error_spec reposProc).2.2.2.2.2.2⟩
  exact (invalid_field_error_spec reposProc).1 ["Starz"] "Starz" (by decide)

lemma pyEq_refl (v : Value) : pyEq v v = true := by
  cases v <;> simp [pyEq]

lemma pyEq_symm {a b : Value} (h : pyEq a b = true) : pyEq b a = true := by
  cases a <;> cases b <;> simp_all [pyEq]

lemma pyEq_bool_int_bool {x y : Bool} {n : Int}
    (hab : pyEq (Value.bool x) (Value.int n) = true)
    (hbc : pyEq (Value.int n) (Value.bool y) = true) :
    pyEq (Value.bool x) (Value.bool y) = true := by
  cases x <;> cases y <;> simp_all [pyEq]

lemma pyEq_trans {a b c : Value} (hab : pyEq a b = true)
    (hbc : pyEq b c = true) : pyEq a c = true := by
  cases a <;> cases b <;> cases c <;>
    (try exact pyEq_bool_int_bool hab hbc) <;> simp_all [pyEq]

lemma seenKeys_snoc (data : List Rec) (r : Rec) (field : String) :
    seenKeys (data ++ [r]) field =
      if (seenKeys data field).any (fun k => pyEq k (rget r field)) then
        seenKeys data field
      else seenKeys data field ++ [rget r field] := by
  unfold seenKeys
  rw [List.foldl_append]
  rfl

lemma seenKeys_pairwise (data : List Rec) (field : String) :
    (seenKeys data field).Pairwise (fun a b => pyEq a b = false) := by
  induction data using List.reverseRecOn with
  | nil => simp [seenKeys]
  | append_singleton l r ih =>
    rw [seenKeys_snoc]
    by_cases h : (seenKeys l field).any (fun k => pyEq k (rget r field)) = true
    · rw [if_pos h]
      exact ih
    · rw [if_neg h]
      rw [List.pairwise_append]
      refine ⟨ih, by simp, ?_⟩
      intro a ha b hb
      have hb2 : b = rget r field := by simpa using hb
      rw [hb2]
      simp only [List.any_eq_true, not_exists, not_and, Bool.not_eq_true] at h
      exact h a ha

lemma seenKeys_covers (data : List Rec) (field : String) :
    ∀ r ∈ data, ∃ k ∈ seenKeys data field, pyEq k (rget r field) = true := by
  induction data using List.reverseRecOn with
  | nil => simp
  | append_singleton l x ih =>
    intro r hr
    rw [seenKeys_snoc]
    by_cases h : (seenKeys l field).any (fun k => pyEq k (rget x field)) = true
    · rw [if_pos h]
      rcases List.mem_append.mp hr with hl | hx
      · exact ih r hl
      · have hrx : r = x := by simpa using hx
        rw [hrx]
        exact List.any_eq_true.mp h
    · rw [if_neg h]
      rcases List.mem_append.mp hr with hl | hx
      · obtain ⟨k, hk, hpk⟩ := ih r hl
        exact ⟨k, List.mem_append_left _ hk, hpk⟩
      · have hrx : r = x := by simpa using hx
        rw [hrx]
        exact ⟨rget x field, List.mem_append_right _ (by simp), pyEq_refl _⟩

lemma addToGroup_nomatch (ks : List Value) (I : Value → List Rec) (v : Value)
    (r : Rec) (h : ∀ k ∈ ks, pyEq k v = false) :
    addToGroup (ks.map (fun k => (k, I k))) v r
      = ks.map (fun k => (k, I k)) ++ [(v, [r])] := by
  induction ks with
  | nil => rfl
  | cons k ks' ih =>
    simp only [List.map_cons, addToGroup]
    rw [if_neg (by simp [h k (List.mem_cons_self k ks')])]
    rw [ih (fun k2 hk2 => h k2 (List.mem_cons_of_mem k hk2))]
    rfl

lemma addToGroup_match (ks : List Value) (I : Value → List Rec) (v : Value)
    (r : Rec) (k0 : Value) (hk0 : k0 ∈ ks) (hpk : pyEq k0 v = true)
    (hp : ks.Pairwise (fun a b => pyEq a b = false)) :
    addToGroup (ks.map (fun k => (k, I k))) v r
      = ks.map (fun k => (k, if pyEq k v then I k ++ [r] else I k)) := by
  induction ks with
  | nil => cases hk0
  | cons k ks' ih =>
    rw [List.pairwise_cons] at hp
    by_cases hkv : pyEq k v = true
    · simp only [List.map_cons, addToGroup]
      rw [if_pos hkv, if_pos hkv]
      congr 1
      apply List.map_congr_left
      intro k2 hk2
      have hk2v : pyEq k2 v = false := by
        by_contra hc
        rw [Bool.not_eq_false] at hc
        have : pyEq k k2 = true := pyEq_trans hkv (pyEq_symm hc)
        rw [hp.1 k2 hk2] at this
        cases this
      rw [if_neg (by simp [hk2v])]
    · have hk0' : k0 ∈ ks' := by
        rcases List.mem_cons.mp hk0 with he | hm
        · rw [he] at hpk; exact absurd hpk hkv
        · exact hm
      simp only [List.map_cons, addToGroup]
      rw [if_neg (by simp [hkv]), if_neg (by simp [hkv])]
      rw [ih hk0' hp.2]

lemma buildGroupsOk_snoc (data : List Rec) (r : Rec) (field : String) :
    buildGroupsOk (data ++ [r]) field
      = addToGroup (buildGroupsOk data field) (rget r field) r := by
  unfold buildGroupsOk
  rw [List.foldl_append]
  rfl

lemma except_ok_bind {A B : Type} (a : A) (f : A → Except String B) :
    (Except.ok a : Except String A) >>= f = f a := rfl

lemma buildGroups_all_hashable (data : List Rec) (field : String) :
    ∀ gs : List (Value × List Rec),
      (∀ r ∈ data, pyHashable (rget r field) = true) →
      data.foldlM
        (fun gs item =>
          if pyHashable (rget item field) then
            Except.ok (addToGroup gs (rget item field) item)
          else Except.error "TypeError: unhashable type: list")
        gs
      = Except.ok
          (data.foldl (fun gs item => addToGroup gs (rget item field) item)
            gs) := by
  induction data with
  | nil =>
    intro gs _
    rfl
  | cons r rest ih =>
    intro gs hh
    rw [List.foldlM_cons, if_pos (hh r (List.mem_cons_self r rest)),
      except_ok_bind]
    exact ih (addToGroup gs (rget r field) r)
      (fun r2 hr2 => hh r2 (List.mem_cons_of_mem r hr2))

lemma buildGroups_eq_ok (data : List Rec) (field : String)
    (hh : ∀ r ∈ data, pyHashable (rget r field) = true) :
    buildGroups data field = Except.ok (buildGroupsOk data field) :=
  buildGroups_all_hashable data field [] hh

lemma buildGroupsOk_eq (data : List Rec) (field : String) :
    buildGroupsOk data field
      = (seenKeys data field).map
          (fun k => (k, data.filter (fun r => pyEq k (rget r field)))) := by
  induction data using List.reverseRecOn with
  | nil => rfl
  | append_singleton l r ih =>
    rw [buildGroupsOk_snoc, ih, seenKeys_snoc]
    by_cases h : (seenKeys l field).any (fun k => pyEq k (rget r field)) = true
    · rw [if_pos h]
      obtain ⟨k0, hk0, hpk⟩ := List.any_eq_true.mp h
      rw [addToGroup_match _ _ _ _ k0 hk0 hpk (seenKeys_pairwise l field)]
      apply List.map_congr_left
      intro k _
      by_cases hkv : pyEq k (rget r field) = true <;>
        simp [List.filter_append, List.filter_cons, hkv]
    · rw [if_neg h]
      simp only [List.any_eq_true, not_exists, not_and, Bool.not_eq_true] at h
      rw [addToGroup_nomatch _ _ _ _ h]
      rw [List.map_append]
      congr 1
      · apply List.map_congr_left
        intro k hk
        simp [List.filter_append, List.filter_cons, h k hk]
      · simp only [List.map_cons, List.map_nil]
        have hfl : l.filter (fun r2 => pyEq (rget r field) (rget r2 field)) = [] := by
          rw [List.filter_eq_nil_iff]
          intro r2 hr2 hc
          obtain ⟨k2, hk2, hpk2⟩ := seenKeys_covers l field r2 hr2
          have : pyEq k2 (rget r field) = true :=
            pyEq_trans hpk2 (pyEq_symm hc)
          rw [h k2 hk2] at this
          cases this
        simp [List.filter_append, List.filter_cons, hfl, pyEq_refl]

lemma aggStep_ok (items : List Rec) (d : Rec) (q : String × AggFn)
    (htot : ∀ vals : List Value, vals ≠ [] → ∃ v, q.2 vals = Except.ok v) :
    aggStep items d q
      = Except.ok (dictInsert d q.1 (aggSpecValue items q.1 q.2)) := by
  simp only [aggStep, aggSpecValue]
  by_cases hv : (aggValues items q.1).isEmpty = true
  · rw [if_pos hv, if_pos hv]
  · have hvne : aggValues items q.1 ≠ [] := by
      cases hgv : aggValues items q.1 with
      | nil => rw [hgv] at hv; exact absurd rfl hv
      | cons a rest => simp
    obtain ⟨v, hqv⟩ := htot (aggValues items q.1) hvne
    rw [if_neg hv, if_neg hv, hqv]

lemma buildGroupRec_foldl (g : Value × List Rec) :
    ∀ (aggs : List (String × AggFn)) (d0 : Rec),
      (∀ q ∈ aggs, ∀ p ∈ d0, p.1 ≠ q.1) →
      (aggs.map Prod.fst).Nodup →
      (∀ q ∈ aggs, ∀ vals : List Value, vals ≠ [] →
        ∃ v, q.2 vals = Except.ok v) →
      aggs.foldlM (aggStep g.2) d0
      = Except.ok
          (d0 ++ aggs.map (fun q => (q.1, aggSpecValue g.2 q.1 q.2))) := by
  intro aggs
  induction aggs with
  | nil =>
    intro d0 _ _ _
    show Except.ok d0 = _
    simp
  | cons q aggs' ih =>
    intro d0 hfresh hnd htot
    rw [List.map_cons, List.nodup_cons] at hnd
    have hfresh2 : ∀ q2 ∈ aggs',
        ∀ p ∈ d0 ++ [(q.1, aggSpecValue g.2 q.1 q.2)], p.1 ≠ q2.1 := by
      intro q2 hq2 p hp
      rcases List.mem_append.mp hp with hp0 | hp1
      · exact hfresh q2 (List.mem_cons_of_mem q hq2) p hp0
      · have hpq : p = (q.1, aggSpecValue g.2 q.1 q.2) := by simpa using hp1
        rw [hpq]
        intro hc
        have hc2 : q.1 = q2.1 := hc
        apply hnd.1
        rw [hc2]
        exact List.mem_map.mpr ⟨q2, hq2, rfl⟩
    have hins : dictInsert d0 q.1 (aggSpecValue g.2 q.1 q.2)
        = d0 ++ [(q.1, aggSpecValue g.2 q.1 q.2)] :=
      dictInsert_fresh d0 q.1 _
        (fun p hp => hfresh q (List.mem_cons_self q aggs') p hp)
    rw [List.foldlM_cons,
      aggStep_ok g.2 d0 q (htot q (List.mem_cons_self q aggs')),
      except_ok_bind, hins,
      ih (d0 ++ [(q.1, aggSpecValue g.2 q.1 q.2)]) hfresh2 hnd.2
        (fun q2 hq2 => htot q2 (List.mem_cons_of_mem q hq2))]
    simp

lemma mapM_ok {α β : Type} {f : α → Except String β} {g : α → β}
    (l : List α) (h : ∀ x ∈ l, f x = Except.ok (g x)) :
    l.mapM f = Except.ok (l.map g) := by
  induction l with
  | nil => rfl
  | cons x xs ih =>
    rw [List.mapM_cons, h x (List.mem_cons_self x xs)]
    rw [show ((Except.ok (g x) : Except String β) >>= fun y =>
          xs.mapM f >>= fun ys => pure (y :: ys))
        = (xs.mapM f >>= fun ys => pure (g x :: ys)) from rfl]
    rw [ih (fun y hy => h y (List.mem_cons_of_mem x hy))]
    rfl

/-- C2 counterexample: grouping by a list-valued field — `Topics` in
this repository's schema — does not partition: the `group_key not in
groups` membership test hashes the key and `_apply_group_by` raises
`TypeError: unhashable type: list`, so execution returns no record per
group (in particular not the one-group output the claim predicts). -/
theorem group_by_unhashable_cex :
    applyGroupBy topicsData "Topics" []
        = Except.error "TypeError: unhashable type: list"
      ∧ applyGroupBy topicsData "Topics" []
          ≠ Except.ok [[("Topics", Value.list ["web", "api"])]] := by
  constructor
  · rfl
  · intro h
    cases h

/-- C2 (amended): when every value of the grouping field is hashable
(not a list — list-valued keys make `_apply_group_by` raise), for
total aggregation callables over pairwise-distinct aggregation fields
that differ from the grouping field, `_apply_group_by` partitions the
records by the Python-equality value of `field` (null a valid,
distinct key), emits one record per group in first-seen-group order,
and each output record is exactly `{field: group_key}` followed by,
per `(agg_field, agg_fn)` pair in declaration order, the aggregation
of the group's non-null `agg_field` values — null when all are null —
every other field being discarded. -/
theorem group_by_partition_spec (data : List Rec) (field : String)
    (aggs : List (String × AggFn))
    (hhash : ∀ r ∈ data, pyHashable (rget r field) = true)
    (hnd : (aggs.map Prod.fst).Nodup)
    (hfld : field ∉ aggs.map Prod.fst)
    (htot : ∀ q ∈ aggs, ∀ vals : List Value, vals ≠ [] →
      ∃ v, q.2 vals = Except.ok v) :
    applyGroupBy data field aggs
      = Except.ok ((seenKeys data field).map
          (fun k => (field, k) ::
            aggs.map (fun q =>
              (q.1,
                aggSpecValue (data.filter (fun r => pyEq k (rget r field)))
                  q.1 q.2)))) := by
  unfold applyGroupBy
  rw [buildGroups_eq_ok data field hhash, buildGroupsOk_eq]
  show List.mapM (buildGroupRec field aggs)
      ((seenKeys data field).map
        (fun k => (k, data.filter (fun r => pyEq k (rget r field))))) = _
  rw [mapM_ok (g := fun pr : Value × List Rec =>
      (field, pr.1) :: aggs.map (fun q => (q.1, aggSpecValue pr.2 q.1 q.2)))
    _ ?_]
  · rw [List.map_map]
    rfl
  · intro pr _
    unfold buildGroupRec
    rw [buildGroupRec_foldl pr aggs [(field, pr.1)] ?_ hnd htot]
    · simp
    · intro q hq p hp
      have hpf : p = (field, pr.1) := by simpa using hp
      rw [hpf]
      intro hc
      have hc2 : field = q.1 := hc
      apply hfld
      rw [hc2]
      exact List.mem_map.mpr ⟨q, hq, rfl⟩

theorem group_by_partition_spec_witness :
    applyGroupBy gData "Language" [("Stars", countAgg)]
      = Except.ok
          [[("Language", Value.str "Go"), ("Stars", Value.int 2)],
           [("Language", Value.null), ("Stars", Value.int 1)]] := by
  rw [group_by_partition_spec gData "Language" [("Stars", countAgg)]
    (by decide) (by simp) (by decide) ?_]
  · rfl
  · intro q hq vals _
    have hqe : q = ("Stars", countAgg) := by simpa using hq
    rw [hqe]
    exact ⟨Value.int vals.length, rfl⟩
